import Mathlib

/-!
Verification of the atlas-daemon sync-and-review core against its
natural-language specification.

The Python sources under `tools/atlas-daemon/atlas_daemon/` are shallowly
embedded below.  Text is modelled as `List Char` (one element per Unicode
code point, matching Python `len`/slicing on `str`).  Python `str.splitlines`
is modelled with `'\n'` as the only line terminator, which is the terminator
produced by the git diffs this code consumes.  External collaborators
(`json.loads`, the Anthropic review oracle, the Fernet codec) are passed in
as explicit function parameters, mirroring the spec's treatment of them as
out-of-scope interfaces.
-/

namespace Atlas

/-- Program text: one `Char` per Unicode code point. -/
abbrev Text := List Char

/-- Python `str.isspace` characters relevant to `str.strip()` (ASCII range). -/
def isPySpace (c : Char) : Bool :=
  c = ' ' || c = '\t' || c = '\n' || c = '\r' || c = '\x0b' || c = '\x0c'

/-- Python regex `\w` (ASCII range; the review responses are ASCII-fenced). -/
def isWordChar (c : Char) : Bool :=
  c.isAlpha || c.isDigit || c = '_'

/-- Python `str.strip()`: drop leading and trailing whitespace. -/
def stripText (t : Text) : Text :=
  ((t.dropWhile isPySpace).reverse.dropWhile isPySpace).reverse

/-- `t` contains no newline character. -/
def noNl (t : Text) : Bool := t.all (· ≠ '\n')

/-- Python `str.splitlines(keepends=True)` with `'\n'` as terminator:
each produced line keeps its trailing newline. -/
def splitLinesKeep : Text → List Text
  | [] => []
  | c :: rest =>
    if c = '\n' then [c] :: splitLinesKeep rest
    else
      match splitLinesKeep rest with
      | [] => [[c]]
      | l :: ls => (c :: l) :: ls

/-- Drop one trailing newline from a line (Python `splitlines()` without
keepends, per line). -/
def dropNl (l : Text) : Text :=
  if l.getLast? = some '\n' then l.dropLast else l

/-- Python `str.splitlines()` (no keepends). -/
def splitLines (t : Text) : List Text := (splitLinesKeep t).map dropNl

/-- A closed line: some newline-free body followed by a newline. -/
def IsClosedLine (l : Text) : Prop := ∃ b, l = b ++ ['\n'] ∧ noNl b = true

/-- Well-formed line lists: every line but the last ends in a newline and
contains no internal newline; the last is nonempty and newline-free apart
from an optional terminator.  `splitLinesKeep` always produces such lists. -/
def LinesOK : List Text → Prop
  | [] => True
  | [l] => l ≠ [] ∧ (noNl l = true ∨ IsClosedLine l)
  | l :: l2 :: ls => IsClosedLine l ∧ LinesOK (l2 :: ls)

/-! ### review.py: split_diff_by_file / extract_file_path / filter_script_changes -/

/-- A `diff --git ` boundary line (review.py line 43). -/
def isBoundary (l : Text) : Bool := "diff --git ".data.isPrefixOf l

/-- Loop body of `split_diff_by_file` (review.py lines 38-53), operating on
the `splitlines(keepends=True)` list: `cur` is the `current` accumulator. -/
def sdbfAux (cur : List Text) : List Text → List (List Text)
  | [] => if cur.isEmpty then [] else [cur]
  | l :: ls =>
    if isBoundary l then
      if cur.isEmpty then sdbfAux [l] ls else cur :: sdbfAux [l] ls
    else
      sdbfAux (cur ++ [l]) ls

/-- `split_diff_by_file(raw_diff)` from review.py: cut the diff into chunks,
one starting at each `diff --git ` line. -/
def split_diff_by_file (raw : Text) : List Text :=
  (sdbfAux [] (splitLinesKeep raw)).map List.flatten

/-- `REVIEWABLE_EXTENSIONS` check: `any(path.endswith(ext) for ext in (".luau", ".lua"))`. -/
def isReviewable (path : Text) : Bool :=
  ".luau".data.isSuffixOf path || ".lua".data.isSuffixOf path

/-- Line scan of `extract_file_path` (review.py lines 56-62). -/
def extractGo : List Text → Text
  | [] => []
  | l :: ls =>
    if "+++ b/".data.isPrefixOf l then stripText (l.drop 6)
    else if "+++ ".data.isPrefixOf l then stripText (l.drop 4)
    else extractGo ls

/-- `extract_file_path(file_diff)` from review.py. -/
def extract_file_path (fd : Text) : Text := extractGo (splitLines fd)

/-- `filter_script_changes(raw_diff)` from review.py lines 65-71:
keep the chunks whose target path is reviewable, rejoin with `"\n".join`. -/
def filter_script_changes (raw : Text) : Text :=
  List.intercalate ['\n']
    ((split_diff_by_file raw).filter (fun chunk => isReviewable (extract_file_path chunk)))

/-! ### review.py: parse_issues

`json.loads` is an out-of-scope stdlib collaborator: it is passed in as an
abstract `loads : Text → Option Json` parameter (`none` = `JSONDecodeError`).
The JSON value model includes the non-finite floats `Infinity`/`NaN`, which
Python's `json.loads` accepts by default; other floats are not exercised by
the review pipeline and integral numbers are modelled as `Int`. -/

/-- A decoded Python JSON value (`json.loads` result). -/
inductive Json where
  | null
  | bool (b : Bool)
  | num (n : Int)
  | inf (negSign : Bool)
  | nan
  | str (s : String)
  | arr (elems : List Json)
  | obj (fields : List (String × Json))

/-- The Python exceptions `int(...)` can raise on a decoded JSON value. -/
inductive PyErr where
  | valueError
  | typeError
  | overflowError
deriving DecidableEq

mutual

/-- Python `repr` of a decoded JSON value (string escape sequences are not
modelled; the review pipeline only reaches this on container-valued fields). -/
def pyRepr : Json → String
  | .null => "None"
  | .bool true => "True"
  | .bool false => "False"
  | .num n => toString n
  | .inf negSign => if negSign then "-inf" else "inf"
  | .nan => "nan"
  | .str s => "'" ++ s ++ "'"
  | .arr l => "[" ++ pyReprList l ++ "]"
  | .obj fs => "\x7b" ++ pyReprFields fs ++ "\x7d"

/-- Comma-joined `repr`s of list elements. -/
def pyReprList : List Json → String
  | [] => ""
  | [x] => pyRepr x
  | x :: y :: xs => pyRepr x ++ ", " ++ pyReprList (y :: xs)

/-- Comma-joined `repr`s of dict entries. -/
def pyReprFields : List (String × Json) → String
  | [] => ""
  | [(k, v)] => "'" ++ k ++ "': " ++ pyRepr v
  | (k, v) :: f :: fs => "'" ++ k ++ "': " ++ pyRepr v ++ ", " ++ pyReprFields (f :: fs)

end

/-- Python `str(...)` of a decoded JSON value (never raises). -/
def pyStr : Json → String
  | .null => "None"
  | .bool true => "True"
  | .bool false => "False"
  | .num n => toString n
  | .inf negSign => if negSign then "-inf" else "inf"
  | .nan => "nan"
  | .str s => s
  | .arr l => "[" ++ pyReprList l ++ "]"
  | .obj fs => "\x7b" ++ pyReprFields fs ++ "\x7d"

/-- Python `int(s)` on a string: optional surrounding whitespace, optional
sign, nonempty digit run (digit-group underscores are not modelled). -/
def pyIntOfString (s : String) : Option Int :=
  let t := stripText s.data
  let signed : Int × Text :=
    match t with
    | '+' :: r => (1, r)
    | '-' :: r => (-1, r)
    | r => (1, r)
  if signed.2 ≠ [] ∧ signed.2.all Char.isDigit then
    some (signed.1 * signed.2.foldl (fun a c => a * 10 + ((c.toNat - 48 : Nat) : Int)) 0)
  else none

/-- Python `int(x)` on a decoded JSON value.  `int(float("inf"))` raises
`OverflowError`; `int(float("nan"))` raises `ValueError`; `int` of `None`,
lists and dicts raises `TypeError`. -/
def pyInt : Json → Except PyErr Int
  | .null => .error .typeError
  | .bool b => .ok (if b then 1 else 0)
  | .num n => .ok n
  | .inf _ => .error .overflowError
  | .nan => .error .valueError
  | .str s =>
    match pyIntOfString s with
    | some n => .ok n
    | none => .error .valueError
  | .arr _ => .error .typeError
  | .obj _ => .error .typeError

/-- Python `dict.get(key, default)` (`json.loads` yields unique keys). -/
def pyGet (fields : List (String × Json)) (key : String) (dflt : Json) : Json :=
  match fields.find? (fun p => p.1 == key) with
  | some p => p.2
  | none => dflt

/-- `Issue` dataclass from review.py lines 23-31. -/
structure Issue where
  file : String
  line_start : Int
  line_end : Int
  severity : String
  title : String
  explanation : String
  suggestion : String
deriving DecidableEq

instance {ε α : Type} [DecidableEq ε] [DecidableEq α] : DecidableEq (Except ε α) := fun a b =>
  match a, b with
  | .ok x, .ok y =>
    if h : x = y then isTrue (by rw [h]) else isFalse (by intro hc; cases hc; exact h rfl)
  | .error x, .error y =>
    if h : x = y then isTrue (by rw [h]) else isFalse (by intro hc; cases hc; exact h rfl)
  | .ok _, .error _ => isFalse (by intro hc; cases hc)
  | .error _, .ok _ => isFalse (by intro hc; cases hc)

/-- One iteration of the element loop in `parse_issues` (review.py lines
108-124): non-dicts are skipped; `int(...)` failures with `ValueError` or
`TypeError` skip the element; any other exception (notably `OverflowError`)
propagates out of the loop. -/
def convert_item (item : Json) : Except PyErr (Option Issue) :=
  match item with
  | .obj fields =>
    (match pyInt (pyGet fields "line_start" (Json.num 0)) with
     | .error .overflowError => .error .overflowError
     | .error _ => .ok none
     | .ok a =>
       match pyInt (pyGet fields "line_end" (Json.num 0)) with
       | .error .overflowError => .error .overflowError
       | .error _ => .ok none
       | .ok b =>
         .ok (some
           { file := pyStr (pyGet fields "file" (Json.str ""))
             line_start := a
             line_end := b
             severity := pyStr (pyGet fields "severity" (Json.str "Medium"))
             title := pyStr (pyGet fields "title" (Json.str ""))
             explanation := pyStr (pyGet fields "explanation" (Json.str ""))
             suggestion := pyStr (pyGet fields "suggestion" (Json.str "")) }))
  | _ => .ok none

/-- The element loop of `parse_issues`: a propagating exception aborts the
whole call. -/
def parse_elements : List Json → Except PyErr (List Issue)
  | [] => .ok []
  | item :: rest =>
    match convert_item item with
    | .error e => .error e
    | .ok none => parse_elements rest
    | .ok (some iss) =>
      match parse_elements rest with
      | .error e => .error e
      | .ok l => .ok (iss :: l)

/-- `if not isinstance(data, list): return []` plus the element loop. -/
def parse_data : Json → Except PyErr (List Issue)
  | .arr items => parse_elements items
  | _ => .ok []

/-- `re.sub(r"^` ``` `\w*\n?", "", text)`: drop the opening fence marker,
its language word and one following newline. -/
def fence_open_strip (t : Text) : Text :=
  let r := (t.drop 3).dropWhile isWordChar
  match r with
  | '\n' :: rest => rest
  | _ => r

/-- `re.sub(r"\n?` ``` `$", "", text)` on fence-opened, pre-stripped text
(which never ends in a newline, so `$` is end-of-string here). -/
def fence_close_strip (t : Text) : Text :=
  if "```".data.isSuffixOf t then
    let r := t.take (t.length - 3)
    if r.getLast? = some '\n' then r.dropLast else r
  else t

/-- The fence-stripping prelude of `parse_issues` (review.py lines 84-88). -/
def strip_code_fence (t : Text) : Text :=
  let t1 := stripText t
  if "```".data.isPrefixOf t1 then stripText (fence_close_strip (fence_open_strip t1))
  else t1

/-- Index of the last occurrence of `c` in `t`. -/
def lastIdxOf (c : Char) (t : Text) : Option Nat :=
  match t.reverse.findIdx? (· = c) with
  | none => none
  | some k => some (t.length - 1 - k)

/-- `re.search(r"\[.*\]", text, re.DOTALL)`: the leftmost-starting, greedy
match runs from the first `[` that is followed by some `]` up to the last
`]` of the whole text. -/
def bracket_span (t : Text) : Option Text :=
  match lastIdxOf ']' t with
  | none => none
  | some j =>
    match (t.take j).findIdx? (· = '[') with
    | none => none
    | some i => some ((t.take (j + 1)).drop i)

/-- `parse_issues(text)` from review.py lines 83-126, parametrised by the
stdlib JSON parser.  `Except.error` models an uncaught exception escaping
the function. -/
def parse_issues (loads : Text → Option Json) (t0 : Text) : Except PyErr (List Issue) :=
  let t := strip_code_fence t0
  match loads t with
  | some d => parse_data d
  | none =>
    match bracket_span t with
    | some sub =>
      match loads sub with
      | some d => parse_data d
      | none => Except.ok []
    | none => Except.ok []

/-! ### db.py: games table error fields and the issues table -/

/-- The sync-health columns of one `games` row (db.py schema lines 31-34);
the identity/credential columns are orthogonal to the throttle algorithm. -/
structure ErrState where
  last_error : Option String
  last_error_at : Option String
  error_count : Nat
deriving DecidableEq

/-- Error state after `update_last_sync` (db.py lines 192-198). -/
def clearedErr : ErrState := { last_error := none, last_error_at := none, error_count := 0 }

/-- `Database.update_last_error` (db.py lines 200-221).  `now` is the
caller-supplied wall clock.  Returns the new row state and `shouldNotify`. -/
def update_last_error (st : ErrState) (now error : String) : ErrState × Bool :=
  match st.last_error with
  | some prev =>
    if prev = error then
      let n := st.error_count + 1
      ({ st with error_count := n }, n == 1 || n % 12 == 0)
    else
      ({ last_error := some error, last_error_at := some now, error_count := 1 }, true)
  | none =>
    ({ last_error := some error, last_error_at := some now, error_count := 1 }, true)

/-- State after `k` consecutive `update_last_error` calls with the same
message, starting from a cleared error state. -/
def errIter (now error : String) : Nat → ErrState
  | 0 => clearedErr
  | k + 1 => (update_last_error (errIter now error k) now error).1

/-- One `issues` row (db.py schema lines 39-55; `created_at` is a
database-assigned wall-clock column and is not modelled). -/
structure DBIssue where
  id : Nat
  game_id : Nat
  discord_message_id : Option String
  file_path : String
  line_start : Int
  line_end : Int
  severity : String
  title : String
  explanation : String
  suggestion : String
  resolved : Bool
  resolved_by : Option String
  resolved_reason : Option String
  resolved_at : Option String
deriving DecidableEq

/-- The `issues` table of one database, with the autoincrement cursor. -/
structure DBState where
  nextId : Nat
  issues : List DBIssue
deriving DecidableEq

/-- A freshly created database (autoincrement ids start at 1). -/
def db0 : DBState := { nextId := 1, issues := [] }

/-- `Database.get_unresolved_issues` (db.py lines 225-229). -/
def get_unresolved_issues (db : DBState) (gid : Nat) : List DBIssue :=
  db.issues.filter (fun i => i.game_id == gid && !i.resolved)

/-- `Database.add_issue` (db.py lines 231-249): insert with `resolved = 0`
and fresh autoincrement id; returns the new id. -/
def add_issue (db : DBState) (gid : Nat) (mid : Option String) (fp : String)
    (ls le : Int) (sev ttl expl sugg : String) : Nat × DBState :=
  (db.nextId,
   { nextId := db.nextId + 1
     issues := db.issues ++
       [{ id := db.nextId, game_id := gid, discord_message_id := mid, file_path := fp,
          line_start := ls, line_end := le, severity := sev, title := ttl,
          explanation := expl, suggestion := sugg, resolved := false,
          resolved_by := none, resolved_reason := none, resolved_at := none }] })

/-- The column updates of `Database.resolve_issue` on a matching row. -/
def resolveUpd (resolver reason now : String) (i : DBIssue) : DBIssue :=
  { i with resolved := true, resolved_by := some resolver,
           resolved_reason := some reason, resolved_at := some now }

/-- `Database.resolve_issue` (db.py lines 251-259). -/
def resolve_issue (db : DBState) (issue_id : Nat) (resolver reason now : String) : DBState :=
  { db with issues := db.issues.map (fun i =>
      if i.id = issue_id then resolveUpd resolver reason now i else i) }

/-- `Database.update_issue_message_id` (db.py lines 261-266). -/
def update_issue_message_id (db : DBState) (issue_id : Nat) (mid : String) : DBState :=
  { db with issues := db.issues.map (fun i =>
      if i.id = issue_id then { i with discord_message_id := some mid } else i) }

/-- `Database.final_dedup` (db.py lines 274-280): does an unresolved issue
with this `(game, file, title)` already exist? -/
def final_dedup (db : DBState) (gid : Nat) (fp ttl : String) : Bool :=
  db.issues.any (fun i => i.game_id == gid && i.file_path == fp && i.title == ttl && !i.resolved)

/-! ### daemon.py: auto-resolve and the review-and-persist step -/

/-- `_auto_resolve` (daemon.py lines 142-148): resolve every unresolved
issue of the workspace whose file is in the changed list, reason
`"file modified"`, resolver `"auto"`; return the resolved ids.  The
function takes no review-oracle argument: this step makes no oracle call. -/
def auto_resolve (db : DBState) (gid : Nat) (changed : List String) (now : String) :
    DBState × List Nat :=
  let matched := (get_unresolved_issues db gid).filter (fun i => changed.contains i.file_path)
  (matched.foldl (fun d i => resolve_issue d i.id "auto" "file modified" now) db,
   matched.map (fun i => i.id))

/-- The persistence part of `_post_issues` for one finding (daemon.py lines
210-226): insert, post the embed, then store the message id.  `mids` maps
the new row id to the Discord message id the send returned (external). -/
def post_one (db : DBState) (gid : Nat) (iss : Issue) (mids : Nat → String) : DBState :=
  let r := add_issue db gid none iss.file iss.line_start iss.line_end iss.severity
    iss.title iss.explanation iss.suggestion
  update_issue_message_id r.2 r.1 (mids r.1)

/-- The review-and-persist step of `_sync_loop` (daemon.py lines 103-109
plus `_post_issues`): drop findings that dedup against the *initial* store,
then insert the survivors one by one. -/
def review_and_persist (db : DBState) (gid : Nat) (batch : List Issue) (mids : Nat → String) :
    DBState :=
  let new_issues := batch.filter (fun i => !(final_dedup db gid i.file i.title))
  new_issues.foldl (fun d i => post_one d gid i mids) db

/-- Two issue rows that violate the open-finding uniqueness invariant:
same workspace, file and title, both unresolved. -/
def IssueKeyClash (a b : DBIssue) : Prop :=
  a.game_id = b.game_id ∧ a.file_path = b.file_path ∧ a.title = b.title ∧
    a.resolved = false ∧ b.resolved = false

instance (a b : DBIssue) : Decidable (IssueKeyClash a b) := by
  unfold IssueKeyClash; infer_instance

/-- The §3 invariant: no two rows of the store clash. -/
def NoDupUnresolved (db : DBState) : Prop :=
  db.issues.Pairwise (fun a b => ¬ IssueKeyClash a b)

instance (db : DBState) : Decidable (NoDupUnresolved db) := by
  unfold NoDupUnresolved; infer_instance

/-- Database states reachable from a fresh database by the orchestrator
operations named in the spec, with oracle batches restricted to pairwise
distinct `(file, title)` keys. -/
inductive Reachable : DBState → Prop where
  | empty : Reachable db0
  | review (db : DBState) (gid : Nat) (batch : List Issue) (mids : Nat → String)
      (hr : Reachable db)
      (hk : batch.Pairwise (fun a b => ¬(a.file = b.file ∧ a.title = b.title))) :
      Reachable (review_and_persist db gid batch mids)
  | auto (db : DBState) (gid : Nat) (changed : List String) (now : String)
      (hr : Reachable db) : Reachable ((auto_resolve db gid changed now).1)
  | manual (db : DBState) (issue_id : Nat) (user now : String) (hr : Reachable db) :
      Reachable (resolve_issue db issue_id user "manual" now)

/-! ### review.py: review_diff

The Anthropic client is the out-of-scope review oracle: modelled as
`oracle : Text → Option Text` from the user message content to the response
text (`none` = the API call raised).  `review_diff` returns the outcome
(`none` = an exception escaped) together with the list of user message
contents sent to the oracle, in order. -/

/-- `TOKEN_ESTIMATE_DIVISOR` (review.py line 19). -/
def TOKEN_ESTIMATE_DIVISOR : Nat := 4

/-- `MAX_SINGLE_PASS_TOKENS` (review.py line 20). -/
def MAX_SINGLE_PASS_TOKENS : Nat := 150000

/-- `format_existing_issues` (review.py lines 74-80). -/
def format_existing_issues (existing : List DBIssue) : Text :=
  if existing.isEmpty then []
  else
    List.intercalate ['\n']
      ("Already-reported unresolved issues (do NOT re-report these):".data ::
        existing.map (fun e =>
          ("- [" ++ e.severity ++ "] " ++ e.file_path ++ ":" ++ toString e.line_start
            ++ " -- " ++ e.title).data))

/-- The user message content built in `review_diff`/`review_one`
(review.py lines 144 and 171). -/
def mkPrompt (ctx sd : Text) : Text :=
  if ctx.isEmpty then "Review this diff:\n\n".data ++ sd
  else ctx ++ "\n\nReview this diff:\n\n".data ++ sd

/-- `review_one` inside `_review_chunked` (review.py lines 170-182): any
exception — a failed API call or a propagating parse exception — is caught
and contributes zero findings for that file. -/
def review_one (loads : Text → Option Json) (oracle : Text → Option Text)
    (ctx fd : Text) : List Issue :=
  match oracle (mkPrompt ctx fd) with
  | some t =>
    match parse_issues loads t with
    | .ok l => l
    | .error _ => []
  | none => []

/-- `_review_chunked` (review.py lines 159-185): one concurrent oracle call
per reviewable per-file segment; results concatenated. -/
def review_chunked (loads : Text → Option Json) (oracle : Text → Option Text)
    (diff ctx : Text) : Option (List Issue) × List Text :=
  let fds := (split_diff_by_file diff).filter (fun fd => isReviewable (extract_file_path fd))
  (some ((fds.map (review_one loads oracle ctx)).flatten), fds.map (mkPrompt ctx))

/-- `review_diff` (review.py lines 129-156).  In the single-pass branch an
oracle failure or a propagating parse exception re-raises (`none`). -/
def review_diff (loads : Text → Option Json) (oracle : Text → Option Text)
    (diff : Text) (existing : List DBIssue) : Option (List Issue) × List Text :=
  let script_diff := filter_script_changes diff
  if script_diff.isEmpty then (some [], [])
  else
    let ctx := format_existing_issues existing
    if script_diff.length / TOKEN_ESTIMATE_DIVISOR > MAX_SINGLE_PASS_TOKENS then
      review_chunked loads oracle script_diff ctx
    else
      let p := mkPrompt ctx script_diff
      match oracle p with
      | some t =>
        match parse_issues loads t with
        | .ok l => (some l, [p])
        | .error _ => (none, [p])
      | none => (none, [p])

/-! ### security.py: init_encryption and the Fernet codec -/

/-- Which of the three key-selection branches of `init_encryption`
(security.py lines 8-20) a configured secret takes. -/
inductive KeySource where
  | randomKey
  | directKey
  | hashedKey
deriving DecidableEq

/-- `key.endswith("=")`: for the one-character suffix this is exactly
"the last character is `=`". -/
def endsWithEq (secret : String) : Bool := secret.data.getLast? = some '='

/-- The branch selection of `init_encryption`: empty secret → fresh random
key; a 44-character secret ending in `=` is used directly as the Fernet
key; anything else is SHA-256-derived. -/
def key_source (secret : String) : KeySource :=
  if secret = "" then .randomKey
  else if secret.length = 44 ∧ endsWithEq secret = true then .directKey
  else .hashedKey

/-- The key material `init_encryption` hands to `Fernet`, with the fresh
random key and the SHA-256-plus-base64 derivation as abstract parameters
(both external primitives). -/
def derive_key (freshKey : String) (sha256b64 : String → String) (secret : String) : String :=
  if secret = "" then freshKey
  else if secret.length = 44 ∧ endsWithEq secret = true then secret
  else sha256b64 secret

/-- Modelled from the spec: the credential codec (`cryptography.Fernet`,
out of scope) — an encrypted blob remembers its key symbolically. -/
structure Blob where
  key : String
  payload : String
deriving DecidableEq

/-- Modelled from the spec: `encrypt(plaintext) -> blob` under a key. -/
def fernet_encrypt (key plaintext : String) : Blob := ⟨key, plaintext⟩

/-- Modelled from the spec: `decrypt(blob)` succeeds exactly under the
encrypting key (`none` = `DecryptionError`). -/
def fernet_decrypt (key : String) (blob : Blob) : Option String :=
  if blob.key = key then some blob.payload else none

/-! ### Concrete fixtures used by witnesses and counterexamples -/

/-- A diff touching two reviewable files. -/
def ddC3 : Text :=
  "diff --git a/a.lua b/a.lua\n+++ b/a.lua\ndiff --git a/b.lua b/b.lua\n+++ b/b.lua\n".data

/-- A diff touching a single reviewable file. -/
def ssDiff : Text := "diff --git a/a.lua b/a.lua\n+++ b/a.lua\n".data

/-- A diff touching only a `.json` file. -/
def jdC6 : Text := "diff --git a/c.json b/c.json\n+++ b/c.json\n+1\n".data

/-- A single-file reviewable diff with an `n`-character final line, used to
drive the token estimate over the chunking threshold. -/
def bigDiff (n : Nat) : Text :=
  "diff --git a/x.lua b/x.lua".data ++ '\n' :: ("+++ b/x.lua".data ++ '\n' :: List.replicate n 'a')

/-- An oracle response whose element carries JSON `Infinity` in a numeric
field (`json.loads` accepts it by default). -/
def tInf : Text := "[\x7b\"line_start\": Infinity\x7d]".data

/-- An oracle response with an out-of-range severity string. -/
def tBanana : Text := "[\x7b\"severity\": \"Banana\"\x7d]".data

/-- The spec's fenced-response scenario (§8). -/
def tFenceFull : Text :=
  "```json\n[\x7b\"file\": \"a.luau\", \"line_start\": 5, \"line_end\": 5, \"severity\": \"High\", \"title\": \"Unsafe call\", \"explanation\": \"x\", \"suggestion\": \"y\"\x7d]\n```".data

/-- The JSON array inside `tFenceFull`. -/
def tFenceInner : Text :=
  "[\x7b\"file\": \"a.luau\", \"line_start\": 5, \"line_end\": 5, \"severity\": \"High\", \"title\": \"Unsafe call\", \"explanation\": \"x\", \"suggestion\": \"y\"\x7d]".data

/-- An oracle response with one uncoercible element and one good element. -/
def tSkip : Text := "[\x7b\"line_start\": \"x\"\x7d, \x7b\"title\": \"t\"\x7d]".data

/-- An oracle response whose single element is an empty mapping. -/
def tEmptyObj : Text := "[\x7b\x7d]".data

/-- `json.loads` on the fixture texts: each mapping below is exactly what
Python's `json.loads` returns on that input; everything else is mapped to
a decode failure, which the fixture inputs never reach. -/
def loadsFixtures (t : Text) : Option Json :=
  if t = tInf then some (Json.arr [Json.obj [("line_start", Json.inf false)]])
  else if t = tBanana then some (Json.arr [Json.obj [("severity", Json.str "Banana")]])
  else if t = tFenceInner then
    some (Json.arr [Json.obj
      [("file", Json.str "a.luau"), ("line_start", Json.num 5), ("line_end", Json.num 5),
       ("severity", Json.str "High"), ("title", Json.str "Unsafe call"),
       ("explanation", Json.str "x"), ("suggestion", Json.str "y")]])
  else if t = tSkip then
    some (Json.arr [Json.obj [("line_start", Json.str "x")], Json.obj [("title", Json.str "t")]])
  else if t = tEmptyObj then some (Json.arr [Json.obj []])
  else none

/-- The findings the review pipeline produces when the oracle answers the
`ssDiff` review with `tBanana`. -/
def reviewedBanana : List Issue :=
  match (review_diff loadsFixtures (fun _ => some tBanana) ssDiff []).1 with
  | some l => l
  | none => []

/-- A sample parsed finding. -/
def iss0 : Issue :=
  { file := "a.lua", line_start := 1, line_end := 2, severity := "High",
    title := "T", explanation := "e", suggestion := "s" }

/-- An unresolved stored finding on `a.luau`. -/
def dbiA : DBIssue :=
  { id := 1, game_id := 1, discord_message_id := some "m1", file_path := "a.luau",
    line_start := 3, line_end := 4, severity := "Low", title := "TA",
    explanation := "ea", suggestion := "sa", resolved := false,
    resolved_by := none, resolved_reason := none, resolved_at := none }

/-- An unresolved stored finding on `b.luau`. -/
def dbiB : DBIssue :=
  { id := 2, game_id := 1, discord_message_id := some "m2", file_path := "b.luau",
    line_start := 5, line_end := 6, severity := "High", title := "TB",
    explanation := "eb", suggestion := "sb", resolved := false,
    resolved_by := none, resolved_reason := none, resolved_at := none }

/-- A store holding `dbiA` and `dbiB`. -/
def dbC7 : DBState := { nextId := 3, issues := [dbiA, dbiB] }

/-! ### Supporting lemmas about the text and diff-splitting model -/

theorem join_splitLinesKeep (t : Text) : (splitLinesKeep t).flatten = t := by
  induction t with
  | nil => rfl
  | cons c rest ih =>
    by_cases hc : c = '\n'
    · simp [splitLinesKeep, hc] at ih ⊢
      exact ih
    · simp only [splitLinesKeep, hc, if_false]
      cases hs : splitLinesKeep rest with
      | nil => simp [hs] at ih; simp [ih]
      | cons l ls => simp [hs] at ih; simp [ih]

theorem splitLinesKeep_eq_nil_iff (t : Text) : splitLinesKeep t = [] ↔ t = [] := by
  constructor
  · intro h
    have := join_splitLinesKeep t
    rw [h] at this
    simpa using this.symm
  · intro h; simp [h, splitLinesKeep]

theorem splitLinesKeep_closed (b : Text) (rest : Text) (hb : noNl b = true) :
    splitLinesKeep (b ++ '\n' :: rest) = (b ++ ['\n']) :: splitLinesKeep rest := by
  induction b with
  | nil => simp [splitLinesKeep]
  | cons c b ih =>
    have hc : c ≠ '\n' := by
      simp [noNl] at hb; exact hb.1
    have hb' : noNl b = true := by
      simp [noNl] at hb ⊢; exact hb.2
    have ih' : splitLinesKeep (List.append b ('\n' :: rest)) =
        (b ++ ['\n']) :: splitLinesKeep rest := ih hb'
    simp only [List.cons_append, splitLinesKeep, hc, if_false]
    rw [ih']

theorem splitLinesKeep_noNl (l : Text) (h : noNl l = true) (hne : l ≠ []) :
    splitLinesKeep l = [l] := by
  induction l with
  | nil => exact absurd rfl hne
  | cons c rest ih =>
    have hc : c ≠ '\n' := by simp [noNl] at h; exact h.1
    have h' : noNl rest = true := by simp [noNl] at h ⊢; exact h.2
    simp only [splitLinesKeep, hc, if_false]
    cases hr : rest with
    | nil => simp [hr, splitLinesKeep]
    | cons d ds =>
      rw [← hr, ih h' (by simp [hr])]

theorem linesOK_splitLinesKeep (t : Text) : LinesOK (splitLinesKeep t) := by
  induction t with
  | nil => simp [splitLinesKeep, LinesOK]
  | cons c rest ih =>
    by_cases hc : c = '\n'
    · subst hc
      simp only [splitLinesKeep, if_pos rfl]
      cases hs : splitLinesKeep rest with
      | nil => exact ⟨by simp, Or.inr ⟨[], rfl, rfl⟩⟩
      | cons l ls =>
        rw [hs] at ih
        refine ⟨⟨[], rfl, rfl⟩, ih⟩
    · simp only [splitLinesKeep, hc, if_false]
      cases hs : splitLinesKeep rest with
      | nil => simp [LinesOK, noNl, hc]
      | cons l ls =>
        rw [hs] at ih
        cases ls with
        | nil =>
          obtain ⟨hl, hdisj⟩ := ih
          refine ⟨by simp, ?_⟩
          rcases hdisj with hn | ⟨b, hb, hnb⟩
          · left; simp [noNl] at hn ⊢; exact ⟨hc, hn⟩
          · right; exact ⟨c :: b, by simp [hb], by simp [noNl] at hnb ⊢; exact ⟨hc, hnb⟩⟩
        | cons l2 ls2 =>
          obtain ⟨⟨b, hb, hnb⟩, hrest⟩ := ih
          exact ⟨⟨c :: b, by simp [hb], by simp [noNl] at hnb ⊢; exact ⟨hc, hnb⟩⟩, hrest⟩

theorem linesOK_roundtrip (ls : List Text) (h : LinesOK ls) :
    splitLinesKeep ls.flatten = ls := by
  induction ls with
  | nil => rfl
  | cons l rest ih =>
    cases rest with
    | nil =>
      obtain ⟨hne, hdisj⟩ := h
      rcases hdisj with hn | ⟨b, hb, hnb⟩
      · simpa using splitLinesKeep_noNl l hn hne
      · subst hb
        have := splitLinesKeep_closed b [] hnb
        simpa using this
    | cons l2 rest2 =>
      obtain ⟨⟨b, hb, hnb⟩, hrest⟩ := h
      subst hb
      have hj : ((b ++ ['\n']) :: l2 :: rest2).flatten
          = b ++ '\n' :: (l2 :: rest2).flatten := by
        simp
      rw [hj, splitLinesKeep_closed b _ hnb, ih hrest]

theorem linesOK_append_left (a b : List Text) (h : LinesOK (a ++ b)) : LinesOK a := by
  induction a with
  | nil => trivial
  | cons x a ih =>
    cases a with
    | nil =>
      cases b with
      | nil => simpa using h
      | cons y b =>
        obtain ⟨⟨w, hw, hnw⟩, _⟩ := h
        exact ⟨by simp [hw], Or.inr ⟨w, hw, hnw⟩⟩
    | cons x2 a2 =>
      obtain ⟨hx, hrest⟩ := h
      exact ⟨hx, ih hrest⟩

theorem linesOK_append_right (a b : List Text) (h : LinesOK (a ++ b)) : LinesOK b := by
  induction a with
  | nil => simpa using h
  | cons x a ih =>
    cases a with
    | nil =>
      cases b with
      | nil => trivial
      | cons y b => exact h.2
    | cons x2 a2 => exact ih h.2

theorem sdbfAux_flatten (ls : List Text) :
    ∀ cur, (sdbfAux cur ls).flatten = cur ++ ls := by
  induction ls with
  | nil =>
    intro cur
    cases cur with
    | nil => simp [sdbfAux]
    | cons x xs => simp [sdbfAux]
  | cons l ls ih =>
    intro cur
    by_cases hb : isBoundary l
    · cases cur with
      | nil => simp [sdbfAux, hb, ih]
      | cons x xs =>
        simp only [sdbfAux, hb, if_true, List.isEmpty_cons, Bool.false_eq_true, if_false]
        simp [ih]
    · simp only [sdbfAux, hb, Bool.false_eq_true, if_false]
      rw [ih]
      simp

/-- Chunks produced with a boundary-led accumulator all start with a boundary line. -/
theorem sdbfAux_all_boundary (ls : List Text) :
    ∀ h t, isBoundary h = true →
      ∀ g ∈ sdbfAux (h :: t) ls, ∃ g0 g1, g = g0 :: g1 ∧ isBoundary g0 = true := by
  induction ls with
  | nil =>
    intro h t hb g hg
    simp [sdbfAux] at hg
    exact ⟨h, t, hg, hb⟩
  | cons l ls ih =>
    intro h t hb g hg
    by_cases hbl : isBoundary l
    · simp only [sdbfAux, hbl, if_true, List.isEmpty_cons, Bool.false_eq_true, if_false,
        List.mem_cons] at hg
      rcases hg with hg | hg
      · exact ⟨h, t, hg, hb⟩
      · exact ih l [] hbl g hg
    · simp only [sdbfAux, hbl, if_false, List.cons_append] at hg
      exact ih h (t ++ [l]) hb g hg

/-- All chunks after the first start with a `diff --git ` boundary line. -/
theorem sdbfAux_tail_boundary (ls : List Text) :
    ∀ cur, ∀ g ∈ (sdbfAux cur ls).tail, ∃ g0 g1, g = g0 :: g1 ∧ isBoundary g0 = true := by
  induction ls with
  | nil =>
    intro cur g hg
    cases cur with
    | nil => simp [sdbfAux] at hg
    | cons x xs => simp [sdbfAux] at hg
  | cons l ls ih =>
    intro cur g hg
    by_cases hb : isBoundary l
    · cases cur with
      | nil =>
        simp only [sdbfAux, hb, if_true, List.isEmpty_nil, if_pos rfl] at hg
        exact sdbfAux_all_boundary ls l [] hb g (List.mem_of_mem_tail hg)
      | cons x xs =>
        simp only [sdbfAux, hb, if_true, List.isEmpty_cons, Bool.false_eq_true, if_false,
          List.tail_cons] at hg
        exact sdbfAux_all_boundary ls l [] hb g hg
    · simp only [sdbfAux, hb, if_false] at hg
      exact ih (cur ++ [l]) g hg

/-- No chunk is empty. -/
theorem sdbfAux_ne_nil (ls : List Text) :
    ∀ cur, ∀ g ∈ sdbfAux cur ls, g ≠ [] := by
  induction ls with
  | nil =>
    intro cur g hg
    cases cur with
    | nil => simp [sdbfAux] at hg
    | cons x xs => simp [sdbfAux] at hg; simp [hg]
  | cons l ls ih =>
    intro cur g hg
    by_cases hb : isBoundary l
    · cases cur with
      | nil =>
        simp only [sdbfAux, hb, if_true, List.isEmpty_nil, if_pos rfl] at hg
        exact ih [l] g hg
      | cons x xs =>
        simp only [sdbfAux, hb, if_true, List.isEmpty_cons, Bool.false_eq_true, if_false,
          List.mem_cons] at hg
        rcases hg with hg | hg
        · simp [hg]
        · exact ih [l] g hg
    · simp only [sdbfAux, hb, if_false] at hg
      exact ih (cur ++ [l]) g hg

/-- Every line of a chunk after the chunk's first line is a non-boundary line. -/
theorem sdbfAux_tail_nonboundary (ls : List Text) :
    ∀ cur, (∀ l ∈ cur.tail, isBoundary l = false) →
      ∀ g ∈ sdbfAux cur ls, ∀ l ∈ g.tail, isBoundary l = false := by
  induction ls with
  | nil =>
    intro cur hcur g hg
    cases cur with
    | nil => simp [sdbfAux] at hg
    | cons x xs => simp [sdbfAux] at hg; subst hg; exact hcur
  | cons l ls ih =>
    intro cur hcur g hg
    by_cases hb : isBoundary l
    · cases cur with
      | nil =>
        simp only [sdbfAux, hb, if_true, List.isEmpty_nil, if_pos rfl] at hg
        exact ih [l] (by simp) g hg
      | cons x xs =>
        simp only [sdbfAux, hb, if_true, List.isEmpty_cons, Bool.false_eq_true, if_false,
          List.mem_cons] at hg
        rcases hg with hg | hg
        · subst hg; exact hcur
        · exact ih [l] (by simp) g hg
    · simp only [sdbfAux, hb, if_false] at hg
      refine ih (cur ++ [l]) ?_ g hg
      intro l2 hl2
      cases cur with
      | nil => simp at hl2
      | cons x xs =>
        simp only [List.cons_append, List.tail_cons, List.mem_append, List.mem_singleton] at hl2
        rcases hl2 with hl2 | hl2
        · exact hcur l2 (by simpa using hl2)
        · subst hl2; simpa using hb

/-- Each chunk is a well-formed line list when the input lines are. -/
theorem sdbfAux_linesOK (ls : List Text) :
    ∀ cur, LinesOK (cur ++ ls) → ∀ g ∈ sdbfAux cur ls, LinesOK g := by
  induction ls with
  | nil =>
    intro cur hok g hg
    cases cur with
    | nil => simp [sdbfAux] at hg
    | cons x xs =>
      simp [sdbfAux] at hg; subst hg; simpa using hok
  | cons l ls ih =>
    intro cur hok g hg
    by_cases hb : isBoundary l
    · cases cur with
      | nil =>
        simp only [sdbfAux, hb, if_true, List.isEmpty_nil, if_pos rfl] at hg
        exact ih [l] (by simpa using hok) g hg
      | cons x xs =>
        simp only [sdbfAux, hb, if_true, List.isEmpty_cons, Bool.false_eq_true, if_false,
          List.mem_cons] at hg
        rcases hg with hg | hg
        · subst hg; exact linesOK_append_left _ _ hok
        · exact ih [l] (linesOK_append_right (x :: xs) _ hok) g hg
    · simp only [sdbfAux, hb, if_false] at hg
      refine ih (cur ++ [l]) ?_ g hg
      simpa using hok

/-- Feeding a run of non-boundary lines into a nonempty accumulator yields
the single chunk extending that accumulator. -/
theorem sdbfAux_nonboundary_run (ls : List Text) :
    ∀ cur, cur ≠ [] → (∀ l ∈ ls, isBoundary l = false) →
      sdbfAux cur ls = [cur ++ ls] := by
  induction ls with
  | nil =>
    intro cur hne _
    cases cur with
    | nil => exact absurd rfl hne
    | cons x xs => simp [sdbfAux]
  | cons l ls ih =>
    intro cur hne hnb
    have hbl : isBoundary l = false := hnb l (by simp)
    simp only [sdbfAux, hbl, Bool.false_eq_true, if_false]
    rw [ih (cur ++ [l]) (by simp) (fun l2 h2 => hnb l2 (by simp [h2]))]
    simp

theorem prefix_append_of_isPrefixOf (p l r : Text) (h : p.isPrefixOf l = true) :
    p.isPrefixOf (l ++ r) = true := by
  rw [List.isPrefixOf_iff_prefix] at h ⊢
  exact h.trans (List.prefix_append l r)

theorem flatten_map_flatten (gs : List (List Text)) :
    (gs.map List.flatten).flatten = gs.flatten.flatten := by
  induction gs with
  | nil => rfl
  | cons g gs ih => simp [ih]

theorem intercalate_single (x : Text) : List.intercalate ['\n'] [x] = x := by
  simp [List.intercalate]

/-! ### The claims -/

/-- C1: starting from a cleared error state, a run of `update_last_error`
calls with one fixed message keeps `error_count` equal to the number of
calls made, stores the message from the first call on, and returns
`shouldNotify = true` exactly when the counter is 1 or a multiple of 12
(so calls 1 and 12 of 13 identical errors notify); a call whose message
differs from the stored one resets the counter to 1, overwrites the stored
message and timestamp, and returns `true`. -/
theorem c1_error_throttle (now msg : String) :
    (∀ k : Nat, (errIter now msg k).error_count = k) ∧
    (∀ k : Nat, k ≠ 0 → errIter now msg k =
      { last_error := some msg, last_error_at := some now, error_count := k }) ∧
    (∀ k : Nat, (update_last_error (errIter now msg k) now msg).2 = true ↔
      (k + 1 = 1 ∨ (k + 1) % 12 = 0)) ∧
    (∀ (st : ErrState) (now2 msg2 : String), st.last_error ≠ some msg2 →
      update_last_error st now2 msg2 =
        ({ last_error := some msg2, last_error_at := some now2, error_count := 1 }, true)) := by
  have hstate : ∀ k : Nat, k ≠ 0 → errIter now msg k =
      { last_error := some msg, last_error_at := some now, error_count := k } := by
    intro k hk
    induction k with
    | zero => exact absurd rfl hk
    | succ m ih =>
      cases m with
      | zero => simp [errIter, clearedErr, update_last_error]
      | succ m2 =>
        have hm := ih (by simp)
        rw [show errIter now msg (m2 + 1 + 1)
            = (update_last_error (errIter now msg (m2 + 1)) now msg).1 from rfl, hm]
        simp [update_last_error]
  refine ⟨?_, hstate, ?_, ?_⟩
  · intro k
    cases k with
    | zero => rfl
    | succ m => rw [hstate (m + 1) (by simp)]
  · intro k
    cases k with
    | zero =>
      simp [errIter, clearedErr, update_last_error]
    | succ m =>
      rw [hstate (m + 1) (by simp)]
      simp [update_last_error, Nat.succ_ne_zero]
  · intro st now2 msg2 hne
    cases hst : st.last_error with
    | none => simp [update_last_error, hst]
    | some prev =>
      have hpm : prev ≠ msg2 := by
        intro hc; exact hne (by rw [hst, hc])
      simp [update_last_error, hst, hpm]

/-- Witness for C1 at concrete inputs: 13 identical errors leave the
counter at 13, call 12 notifies, and a differing message resets. -/
theorem c1_witness :
    (errIter "t0" "boom" 13).error_count = 13 ∧
    errIter "t0" "boom" 12 =
      { last_error := some "boom", last_error_at := some "t0", error_count := 12 } ∧
    ((update_last_error (errIter "t0" "boom" 11) "t0" "boom").2 = true ↔
      (11 + 1 = 1 ∨ (11 + 1) % 12 = 0)) ∧
    update_last_error clearedErr "t1" "other" =
      ({ last_error := some "other", last_error_at := some "t1", error_count := 1 }, true) :=
  ⟨(c1_error_throttle "t0" "boom").1 13,
   (c1_error_throttle "t0" "boom").2.1 12 (by decide),
   (c1_error_throttle "t0" "boom").2.2.1 11,
   (c1_error_throttle "t0" "boom").2.2.2 clearedErr "t1" "other" (by simp [clearedErr])⟩

/-- C10: concatenating the chunks of `split_diff_by_file` (no separator)
reconstructs the input exactly, and every chunk except possibly the first
begins with a `diff --git ` line. -/
theorem c10_split_lossless (raw : Text) :
    (split_diff_by_file raw).flatten = raw ∧
    ∀ chunk ∈ (split_diff_by_file raw).tail,
      "diff --git ".data.isPrefixOf chunk = true := by
  constructor
  · rw [split_diff_by_file, flatten_map_flatten, sdbfAux_flatten]
    simpa using join_splitLinesKeep raw
  · intro chunk hc
    have hex : ∃ g ∈ (sdbfAux [] (splitLinesKeep raw)).tail, List.flatten g = chunk := by
      rw [split_diff_by_file] at hc
      cases h : sdbfAux [] (splitLinesKeep raw) with
      | nil => rw [h] at hc; simp at hc
      | cons g0 gs =>
        rw [h] at hc
        simp only [List.map_cons, List.tail_cons] at hc
        obtain ⟨g, hg, hfl⟩ := List.mem_map.1 hc
        exact ⟨g, by simp [hg], hfl⟩
    obtain ⟨g, hg, rfl⟩ := hex
    obtain ⟨g0, g1, rfl, hb⟩ := sdbfAux_tail_boundary (splitLinesKeep raw) [] g hg
    rw [List.flatten_cons]
    exact prefix_append_of_isPrefixOf _ _ _ hb

/-- Witness for C10 on a two-file diff. -/
theorem c10_witness :
    (split_diff_by_file ddC3).flatten = ddC3 ∧
    "diff --git ".data.isPrefixOf
      ("diff --git a/b.lua b/b.lua\n+++ b/b.lua\n".data) = true :=
  ⟨(c10_split_lossless ddC3).1, (c10_split_lossless ddC3).2 _ (by decide)⟩

/-- Counterexample to C3 as stated: on a diff with two reviewable files,
`"\n".join` inserts an extra newline between the kept chunks, so a second
application of `filter_script_changes` inserts yet another one and the two
results differ. -/
theorem c3_counterexample :
    filter_script_changes (filter_script_changes ddC3) ≠ filter_script_changes ddC3 := by
  decide

/-- C3 amended: `filter_script_changes` is idempotent whenever at most one
chunk of the diff survives the reviewable-extension filter (with two or
more surviving chunks each application inserts an extra separator newline
per boundary, as the counterexample shows). -/
theorem c3_amended (d : Text)
    (h : ((split_diff_by_file d).filter
      (fun c => isReviewable (extract_file_path c))).length ≤ 1) :
    filter_script_changes (filter_script_changes d) = filter_script_changes d := by
  cases hF : (split_diff_by_file d).filter (fun c => isReviewable (extract_file_path c)) with
  | nil =>
    have h1 : filter_script_changes d = [] := by
      rw [filter_script_changes, hF]; simp [List.intercalate]
    rw [h1]; decide
  | cons c F =>
    cases F with
    | cons c2 F2 => rw [hF] at h; simp at h
    | nil =>
      have h1 : filter_script_changes d = c := by
        rw [filter_script_changes, hF]; exact intercalate_single c
      rw [h1]
      have hmem : c ∈ (split_diff_by_file d).filter
          (fun c => isReviewable (extract_file_path c)) := by rw [hF]; simp
      have hcs : c ∈ split_diff_by_file d := List.mem_of_mem_filter hmem
      have hkeep : isReviewable (extract_file_path c) = true := by
        simpa using List.of_mem_filter hmem
      have hex : ∃ g ∈ sdbfAux [] (splitLinesKeep d), List.flatten g = c := by
        rw [split_diff_by_file] at hcs
        obtain ⟨g, hg, hfl⟩ := List.mem_map.1 hcs
        exact ⟨g, hg, hfl⟩
      obtain ⟨g, hg, rfl⟩ := hex
      have hok : LinesOK g :=
        sdbfAux_linesOK _ [] (by simpa using linesOK_splitLinesKeep d) g hg
      have hne : g ≠ [] := sdbfAux_ne_nil _ [] g hg
      have htnb : ∀ l ∈ g.tail, isBoundary l = false :=
        sdbfAux_tail_nonboundary _ [] (by simp) g hg
      have hround : splitLinesKeep g.flatten = g := linesOK_roundtrip g hok
      obtain ⟨h0, t, rfl⟩ : ∃ h0 t, g = h0 :: t := by
        cases g with
        | nil => exact absurd rfl hne
        | cons a b => exact ⟨a, b, rfl⟩
      have htnb2 : ∀ l ∈ t, isBoundary l = false := by
        intro l hl; exact htnb l (by simpa using hl)
      have hstep : sdbfAux ([] : List Text) (h0 :: t) = sdbfAux [h0] t := by
        by_cases hb : isBoundary h0 <;> simp [sdbfAux, hb]
      have hsplit : split_diff_by_file ((h0 :: t).flatten) = [(h0 :: t).flatten] := by
        rw [split_diff_by_file, hround, hstep,
          sdbfAux_nonboundary_run t [h0] (by simp) htnb2]
        simp
      rw [filter_script_changes, hsplit]
      simp only [List.filter_cons, hkeep, if_pos, List.filter_nil]
      exact intercalate_single _

/-- Witness for the amended C3 on a one-file diff. -/
theorem c3_amended_witness :
    ((split_diff_by_file ssDiff).filter
      (fun c => isReviewable (extract_file_path c))).length ≤ 1 ∧
    filter_script_changes (filter_script_changes ssDiff) = filter_script_changes ssDiff :=
  ⟨by decide, c3_amended ssDiff (by decide)⟩

/-- C6: a diff with no reviewable segment makes `review_diff` return the
empty finding list with zero oracle calls. -/
theorem c6_empty_filter_no_oracle_call (loads : Text → Option Json)
    (oracle : Text → Option Text) (existing : List DBIssue) (d : Text)
    (h : filter_script_changes d = []) :
    review_diff loads oracle d existing = (some [], []) := by
  simp [review_diff, h]

/-- Witness for C6: a diff touching only a `.json` file. -/
theorem c6_witness :
    filter_script_changes jdC6 = [] ∧
    review_diff loadsFixtures (fun _ => none) jdC6 [] = (some [], []) :=
  ⟨by decide, c6_empty_filter_no_oracle_call _ _ _ _ (by decide)⟩

/-- C5: when the filtered diff's `length / 4` estimate exceeds 150 000,
`review_diff` issues one oracle call per reviewable per-file chunk and
concatenates the per-file results, where a file whose oracle call fails
contributes the empty list without affecting the others; at or below the
threshold it issues exactly one call carrying the whole filtered diff. -/
theorem c5_chunk_threshold (loads : Text → Option Json) (oracle : Text → Option Text)
    (existing : List DBIssue) (d : Text) :
    (filter_script_changes d ≠ [] →
      (filter_script_changes d).length / TOKEN_ESTIMATE_DIVISOR > MAX_SINGLE_PASS_TOKENS →
      review_diff loads oracle d existing =
        (some ((((split_diff_by_file (filter_script_changes d)).filter
            (fun fd => isReviewable (extract_file_path fd))).map
            (review_one loads oracle (format_existing_issues existing))).flatten),
         ((split_diff_by_file (filter_script_changes d)).filter
            (fun fd => isReviewable (extract_file_path fd))).map
            (mkPrompt (format_existing_issues existing)))) ∧
    (∀ ctx fd : Text, oracle (mkPrompt ctx fd) = none →
      review_one loads oracle ctx fd = []) ∧
    (filter_script_changes d ≠ [] →
      (filter_script_changes d).length / TOKEN_ESTIMATE_DIVISOR ≤ MAX_SINGLE_PASS_TOKENS →
      (review_diff loads oracle d existing).2 =
        [mkPrompt (format_existing_issues existing) (filter_script_changes d)]) := by
  refine ⟨?_, ?_, ?_⟩
  · intro h1 h2
    have he : (filter_script_changes d).isEmpty = false := by
      cases hval : filter_script_changes d with
      | nil => exact absurd hval h1
      | cons a b => rfl
    simp only [review_diff, he, Bool.false_eq_true, if_false, if_pos h2]
    rfl
  · intro ctx fd h
    simp [review_one, h]
  · intro h1 h2
    have he : (filter_script_changes d).isEmpty = false := by
      cases hval : filter_script_changes d with
      | nil => exact absurd hval h1
      | cons a b => rfl
    simp only [review_diff, he, Bool.false_eq_true, if_false, if_neg (Nat.not_lt.2 h2)]
    cases ho : oracle (mkPrompt (format_existing_issues existing) (filter_script_changes d)) with
    | none => simp [ho]
    | some t =>
      cases hp : parse_issues loads t with
      | ok l => simp [ho, hp]
      | error e => simp [ho, hp]

theorem noNl_replicate (n : Nat) : noNl (List.replicate n 'a') = true := by
  simp only [noNl, List.all_eq_true]
  intro c hc
  rw [List.eq_of_mem_replicate hc]
  decide

theorem replicate_a_ne_nil (n : Nat) (hn : n ≠ 0) : List.replicate n 'a' ≠ [] := by
  cases n with
  | zero => exact absurd rfl hn
  | succ m => simp [List.replicate_succ]

theorem bigDiff_lines (n : Nat) (hn : n ≠ 0) :
    splitLinesKeep (bigDiff n) =
      ["diff --git a/x.lua b/x.lua\n".data, "+++ b/x.lua\n".data, List.replicate n 'a'] := by
  rw [bigDiff, splitLinesKeep_closed _ _ (by decide), splitLinesKeep_closed _ _ (by decide),
    splitLinesKeep_noNl _ (noNl_replicate n) (replicate_a_ne_nil n hn)]
  have e1 : "diff --git a/x.lua b/x.lua".data ++ ['\n'] = "diff --git a/x.lua b/x.lua\n".data := by
    decide
  have e2 : "+++ b/x.lua".data ++ ['\n'] = "+++ b/x.lua\n".data := by decide
  rw [e1, e2]

theorem isBoundary_replicate (n : Nat) (hn : n ≠ 0) :
    isBoundary (List.replicate n 'a') = false := by
  cases n with
  | zero => exact absurd rfl hn
  | succ m =>
    rw [isBoundary, List.replicate_succ,
      show "diff --git ".data = 'd' :: "iff --git ".data from by decide]
    simp +decide [List.isPrefixOf]

theorem bigDiff_split (n : Nat) (hn : n ≠ 0) :
    split_diff_by_file (bigDiff n) = [bigDiff n] := by
  have hb1 : isBoundary ("diff --git a/x.lua b/x.lua\n".data) = true := by decide
  have hb2 : isBoundary ("+++ b/x.lua\n".data) = false := by decide
  have hb3 := isBoundary_replicate n hn
  rw [split_diff_by_file, bigDiff_lines n hn]
  simp only [sdbfAux, hb1, hb2, hb3, Bool.false_eq_true, if_false, if_true,
    List.isEmpty_nil, if_pos rfl, List.isEmpty_cons, List.nil_append, List.cons_append,
    List.map_cons, List.map_nil, List.flatten_cons, List.flatten_nil]
  simp [bigDiff]

theorem bigDiff_extract (n : Nat) (hn : n ≠ 0) :
    extract_file_path (bigDiff n) = "x.lua".data := by
  rw [extract_file_path, splitLines, bigDiff_lines n hn]
  have d1 : dropNl ("diff --git a/x.lua b/x.lua\n".data) = "diff --git a/x.lua b/x.lua".data := by
    decide
  have d2 : dropNl ("+++ b/x.lua\n".data) = "+++ b/x.lua".data := by decide
  simp only [List.map_cons, List.map_nil, d1, d2]
  have e1 : ("+++ b/".data.isPrefixOf ("diff --git a/x.lua b/x.lua".data)) = false := by decide
  have e2 : ("+++ ".data.isPrefixOf ("diff --git a/x.lua b/x.lua".data)) = false := by decide
  have e3 : ("+++ b/".data.isPrefixOf ("+++ b/x.lua".data)) = true := by decide
  simp only [extractGo, e1, e2, e3, Bool.false_eq_true, if_false, if_true]
  decide

theorem bigDiff_filter (n : Nat) (hn : n ≠ 0) :
    filter_script_changes (bigDiff n) = bigDiff n := by
  have hkeep : isReviewable (extract_file_path (bigDiff n)) = true := by
    rw [bigDiff_extract n hn]; decide
  rw [filter_script_changes, bigDiff_split n hn]
  simp only [List.filter_cons, hkeep, if_pos, List.filter_nil]
  exact intercalate_single _

theorem bigDiff_length (n : Nat) : (bigDiff n).length = 39 + n := by
  have e1 : ("diff --git a/x.lua b/x.lua".data).length = 26 := by decide
  have e2 : ("+++ b/x.lua".data).length = 11 := by decide
  simp [bigDiff, e1, e2]
  omega

/-- Witness for C5: a single-file reviewable diff of 600 139 characters
(estimate 150 034 tokens) takes the chunked path; with a failing oracle it
yields zero findings and exactly the one per-file call. -/
theorem c5_witness :
    filter_script_changes (bigDiff 600100) ≠ [] ∧
    (filter_script_changes (bigDiff 600100)).length / TOKEN_ESTIMATE_DIVISOR
      > MAX_SINGLE_PASS_TOKENS ∧
    review_diff loadsFixtures (fun _ => none) (bigDiff 600100) [] =
      (some [], [mkPrompt [] (bigDiff 600100)]) := by
  have hn : (600100 : Nat) ≠ 0 := by decide
  have hf : filter_script_changes (bigDiff 600100) = bigDiff 600100 := bigDiff_filter _ hn
  have hne : filter_script_changes (bigDiff 600100) ≠ [] := by
    rw [hf]
    intro hc
    have hlen := congrArg List.length hc
    rw [bigDiff_length] at hlen
    simp at hlen
  have hth : (filter_script_changes (bigDiff 600100)).length / TOKEN_ESTIMATE_DIVISOR
      > MAX_SINGLE_PASS_TOKENS := by
    rw [hf, bigDiff_length]; decide
  refine ⟨hne, hth, ?_⟩
  have h := (c5_chunk_threshold loadsFixtures (fun _ => none) [] (bigDiff 600100)).1 hne hth
  have hkeep : isReviewable (extract_file_path (bigDiff 600100)) = true := by
    rw [bigDiff_extract _ hn]; decide
  rw [h, hf, bigDiff_split _ hn]
  simp [hkeep, review_one, format_existing_issues]

theorem foldl_resolve_issues (resolver reason now : String) :
    ∀ (L : List DBIssue) (db : DBState),
      (L.foldl (fun d i => resolve_issue d i.id resolver reason now) db).issues =
        db.issues.map (fun x =>
          if x.id ∈ L.map (fun i => i.id) then resolveUpd resolver reason now x else x) := by
  intro L
  induction L with
  | nil => intro db; simp
  | cons i L ih =>
    intro db
    rw [List.foldl_cons, ih]
    show (db.issues.map fun x =>
        if x.id = i.id then resolveUpd resolver reason now x else x).map _ = _
    rw [List.map_map]
    apply List.map_congr_left
    intro x _
    by_cases h1 : x.id = i.id
    · by_cases h2 : x.id ∈ L.map (fun i => i.id) <;>
        simp [Function.comp, h1, h2, resolveUpd]
    · by_cases h2 : x.id ∈ L.map (fun i => i.id) <;>
        simp [Function.comp, h1, h2]

/-- C7: with a nonempty changed-paths list, `_auto_resolve` (which takes no
oracle) resolves exactly the unresolved findings of the workspace whose
file is in the list, with resolver `"auto"` and reason `"file modified"`;
unresolved findings whose file is absent from the list survive unchanged. -/
theorem c7_auto_resolve (db : DBState) (gid : Nat) (changed : List String) (now : String)
    (_hch : changed ≠ [])
    (hids : (db.issues.map (fun i => i.id)).Nodup) :
    (auto_resolve db gid changed now).1.issues =
      db.issues.map (fun i =>
        if i.game_id = gid ∧ i.resolved = false ∧ i.file_path ∈ changed then
          resolveUpd "auto" "file modified" now i
        else i) ∧
    (∀ i ∈ db.issues, i.resolved = false → i.file_path ∉ changed →
      i ∈ (auto_resolve db gid changed now).1.issues) ∧
    (∀ i ∈ db.issues, i.game_id = gid → i.resolved = false → i.file_path ∈ changed →
      resolveUpd "auto" "file modified" now i ∈ (auto_resolve db gid changed now).1.issues) := by
  have hinj : ∀ x ∈ db.issues, ∀ y ∈ db.issues, x.id = y.id → x = y := by
    intro x hx y hy hxy
    exact List.inj_on_of_nodup_map hids hx hy hxy
  have hmain : (auto_resolve db gid changed now).1.issues =
      db.issues.map (fun i =>
        if i.game_id = gid ∧ i.resolved = false ∧ i.file_path ∈ changed then
          resolveUpd "auto" "file modified" now i
        else i) := by
    show ((((get_unresolved_issues db gid).filter
        (fun i => changed.contains i.file_path)).foldl
        (fun d i => resolve_issue d i.id "auto" "file modified" now) db)).issues = _
    rw [foldl_resolve_issues]
    apply List.map_congr_left
    intro x hx
    have hkey : (x.id ∈ ((get_unresolved_issues db gid).filter
        (fun i => changed.contains i.file_path)).map (fun i => i.id)) ↔
        (x.game_id = gid ∧ x.resolved = false ∧ x.file_path ∈ changed) := by
      constructor
      · intro hmem
        obtain ⟨y, hy, hyx⟩ := List.mem_map.1 hmem
        have hyf := List.of_mem_filter hy
        have hyu : y ∈ get_unresolved_issues db gid := List.mem_of_mem_filter hy
        have hyb := List.of_mem_filter hyu
        have hyd : y ∈ db.issues := List.mem_of_mem_filter hyu
        have hxy : x = y := hinj x hx y hyd hyx.symm
        subst hxy
        simp only [Bool.and_eq_true, beq_iff_eq, Bool.not_eq_eq_eq_not, Bool.not_true] at hyb
        refine ⟨hyb.1, hyb.2, ?_⟩
        simpa using hyf
      · intro ⟨hg, hr, hm⟩
        refine List.mem_map.2 ⟨x, ?_, rfl⟩
        refine List.mem_filter.2 ⟨?_, by simpa using hm⟩
        refine List.mem_filter.2 ⟨hx, ?_⟩
        simp [hg, hr]
    by_cases hc : x.game_id = gid ∧ x.resolved = false ∧ x.file_path ∈ changed
    · rw [if_pos (hkey.2 hc), if_pos hc]
    · rw [if_neg (fun hm => hc (hkey.1 hm)), if_neg hc]
  refine ⟨hmain, ?_, ?_⟩
  · intro i hi hr hnot
    rw [hmain]
    refine List.mem_map.2 ⟨i, hi, ?_⟩
    exact if_neg (fun hc => hnot hc.2.2)
  · intro i hi hg hr hm
    rw [hmain]
    refine List.mem_map.2 ⟨i, hi, ?_⟩
    exact if_pos ⟨hg, hr, hm⟩

/-- Witness for C7 on a store with one matching and one non-matching
unresolved finding. -/
theorem c7_witness :
    (auto_resolve dbC7 1 ["a.luau"] "t").1.issues =
      [resolveUpd "auto" "file modified" "t" dbiA, dbiB] ∧
    dbiB ∈ (auto_resolve dbC7 1 ["a.luau"] "t").1.issues := by
  have h := c7_auto_resolve dbC7 1 ["a.luau"] "t" (by decide) (by decide)
  constructor
  · rw [h.1]; decide
  · exact h.2.1 dbiB (by decide) (by decide) (by decide)

theorem pairwise_noclash_map (f : DBIssue → DBIssue)
    (hf : ∀ x, (f x).game_id = x.game_id ∧ (f x).file_path = x.file_path ∧
      (f x).title = x.title ∧ ((f x).resolved = false → x.resolved = false))
    (l : List DBIssue) (hl : l.Pairwise (fun a b => ¬ IssueKeyClash a b)) :
    (l.map f).Pairwise (fun a b => ¬ IssueKeyClash a b) := by
  rw [List.pairwise_map]
  refine hl.imp ?_
  intro a b hab hc
  apply hab
  obtain ⟨h1, h2, h3, h4, h5⟩ := hc
  exact ⟨((hf a).1).symm.trans (h1.trans (hf b).1),
    ((hf a).2.1).symm.trans (h2.trans (hf b).2.1),
    ((hf a).2.2.1).symm.trans (h3.trans (hf b).2.2.1),
    (hf a).2.2.2 h4, (hf b).2.2.2 h5⟩

theorem resolve_preserves_noDup (db : DBState) (iid : Nat) (resolver reason now : String)
    (h : NoDupUnresolved db) : NoDupUnresolved (resolve_issue db iid resolver reason now) := by
  unfold NoDupUnresolved at h ⊢
  apply pairwise_noclash_map
  · intro x
    by_cases hx : x.id = iid <;> simp [hx, resolveUpd]
  · exact h

theorem foldl_resolve_preserves (resolver reason now : String) :
    ∀ (L : List DBIssue) (db : DBState), NoDupUnresolved db →
      NoDupUnresolved (L.foldl (fun d i => resolve_issue d i.id resolver reason now) db) := by
  intro L
  induction L with
  | nil => intro db h; exact h
  | cons i L ih =>
    intro db h
    rw [List.foldl_cons]
    exact ih _ (resolve_preserves_noDup _ _ _ _ _ h)

theorem any_map_eq (l : List DBIssue) (f : DBIssue → DBIssue) (p : DBIssue → Bool)
    (hp : ∀ x, p (f x) = p x) : (l.map f).any p = l.any p := by
  induction l with
  | nil => rfl
  | cons x l ih => simp only [List.map_cons, List.any_cons, hp, ih]

theorem persist_aux (gid : Nat) (mids : Nat → String) :
    ∀ (L : List Issue) (db : DBState),
      NoDupUnresolved db →
      (∀ j ∈ L, final_dedup db gid j.file j.title = false) →
      L.Pairwise (fun a b => ¬(a.file = b.file ∧ a.title = b.title)) →
      NoDupUnresolved (L.foldl (fun d i => post_one d gid i mids) db) := by
  intro L
  induction L with
  | nil => intro db h _ _; exact h
  | cons i L ih =>
    intro db hdb hded hpw
    rw [List.foldl_cons]
    have hdedi := hded i (by simp)
    have hhead : ∀ j ∈ L, ¬(i.file = j.file ∧ i.title = j.title) :=
      (List.pairwise_cons.1 hpw).1
    have hptail := (List.pairwise_cons.1 hpw).2
    have hiss : (post_one db gid i mids).issues =
        ((db.issues ++
          [({ id := db.nextId, game_id := gid, discord_message_id := none, file_path := i.file,
              line_start := i.line_start, line_end := i.line_end, severity := i.severity,
              title := i.title, explanation := i.explanation, suggestion := i.suggestion,
              resolved := false, resolved_by := none, resolved_reason := none,
              resolved_at := none } : DBIssue)]).map
          (fun (x : DBIssue) => if x.id = db.nextId then
            { x with discord_message_id := some (mids db.nextId) } else x)) := rfl
    have hdb2 : NoDupUnresolved (post_one db gid i mids) := by
      unfold NoDupUnresolved
      rw [hiss]
      apply pairwise_noclash_map
      · intro x
        by_cases hx : x.id = db.nextId <;> simp [hx]
      · rw [List.pairwise_append]
        refine ⟨hdb, by simp, ?_⟩
        intro a ha b hb
        simp only [List.mem_singleton] at hb
        subst hb
        intro hc
        obtain ⟨hg, hfp, ht, hra, _⟩ := hc
        have hcontra : final_dedup db gid i.file i.title = true := by
          apply List.any_eq_true.2
          refine ⟨a, ha, ?_⟩
          simp [hg, hfp, ht, hra]
        simp [hcontra] at hdedi
    have hded2 : ∀ j ∈ L, final_dedup (post_one db gid i mids) gid j.file j.title = false := by
      intro j hj
      have hjd := hded j (by simp [hj])
      unfold final_dedup
      rw [hiss, any_map_eq _ _ _ (fun x => by by_cases hx : x.id = db.nextId <;> simp [hx]),
        List.any_append]
      have hdbany : db.issues.any (fun x => x.game_id == gid && x.file_path == j.file
          && x.title == j.title && !x.resolved) = false := hjd
      rw [hdbany]
      simp only [Bool.false_or, List.any_cons, List.any_nil, Bool.or_false]
      simp only [beq_self_eq_true, Bool.true_and, Bool.not_false, Bool.and_true]
      by_cases hf2 : i.file = j.file
      · by_cases ht2 : i.title = j.title
        · exact absurd ⟨hf2, ht2⟩ (hhead j hj)
        · simp [ht2]
      · simp [hf2]
    exact ih (post_one db gid i mids) hdb2 hded2 hptail

/-- Counterexample to C2 as stated: a batch containing the same
`(file, title)` twice passes `final_dedup` — which is evaluated against the
pre-batch store only — for both copies, so the review-and-persist step
leaves two identical unresolved findings in the store. -/
theorem c2_counterexample :
    ¬ NoDupUnresolved (review_and_persist db0 1 [iss0, iss0] (fun _ => "m")) := by
  decide

/-- C2 amended: in every state reachable by the orchestrator operations,
no two findings of one workspace share `(file, title)` while both
unresolved, provided each review batch contains pairwise distinct
`(file, title)` pairs (the counterexample shows intra-batch duplicates
violate the invariant). -/
theorem c2_amended (db : DBState) (h : Reachable db) : NoDupUnresolved db := by
  induction h with
  | empty => simp [NoDupUnresolved, db0]
  | review db gid batch mids hr hk ih =>
    apply persist_aux gid mids _ db ih
    · intro j hj
      have hb := List.of_mem_filter hj
      simpa using hb
    · exact List.Pairwise.sublist (List.filter_sublist _) hk
  | auto db gid changed now hr ih =>
    exact foldl_resolve_preserves "auto" "file modified" now _ db ih
  | manual db issue_id user now hr ih =>
    exact resolve_preserves_noDup db issue_id user "manual" now ih

/-- Witness for the amended C2: one review step on a fresh store. -/
theorem c2_amended_witness :
    NoDupUnresolved (review_and_persist db0 1 [iss0] (fun _ => "m")) :=
  c2_amended _ (Reachable.review db0 1 [iss0] _ Reachable.empty (by simp))

theorem post_one_severities (db : DBState) (gid : Nat) (i : Issue) (mids : Nat → String) :
    (post_one db gid i mids).issues.map (fun x => x.severity) =
      db.issues.map (fun x => x.severity) ++ [i.severity] := by
  have hiss : (post_one db gid i mids).issues =
      ((db.issues ++
        [({ id := db.nextId, game_id := gid, discord_message_id := none, file_path := i.file,
            line_start := i.line_start, line_end := i.line_end, severity := i.severity,
            title := i.title, explanation := i.explanation, suggestion := i.suggestion,
            resolved := false, resolved_by := none, resolved_reason := none,
            resolved_at := none } : DBIssue)]).map
        (fun (x : DBIssue) => if x.id = db.nextId then
          { x with discord_message_id := some (mids db.nextId) } else x)) := rfl
  rw [hiss, List.map_map, List.map_append]
  congr 1
  · apply List.map_congr_left
    intro y _
    by_cases hy : y.id = db.nextId <;> simp [Function.comp, hy]
  · simp [Function.comp]

theorem sev_subset_aux (gid : Nat) (mids : Nat → String) :
    ∀ (L : List Issue) (db : DBState) (x : DBIssue),
      x ∈ (L.foldl (fun d i => post_one d gid i mids) db).issues →
      x.severity ∈ db.issues.map (fun i => i.severity) ∨
        x.severity ∈ L.map (fun i => i.severity) := by
  intro L
  induction L with
  | nil =>
    intro db x hx
    exact Or.inl (List.mem_map_of_mem _ hx)
  | cons i L ih =>
    intro db x hx
    rw [List.foldl_cons] at hx
    rcases ih (post_one db gid i mids) x hx with h | h
    · rw [post_one_severities] at h
      rcases List.mem_append.1 h with h2 | h2
      · exact Or.inl h2
      · right
        simp only [List.mem_singleton] at h2
        simp [h2]
    · right
      simp only [List.map_cons, List.mem_cons]
      exact Or.inr h

/-- Counterexample to C9 as stated: an oracle response carrying severity
`"Banana"` flows through `parse_issues` and the review-and-persist step
unvalidated, so the store ends up with a severity outside
`Low|Medium|High|Critical`. -/
theorem c9_counterexample :
    (review_and_persist db0 1 reviewedBanana (fun _ => "m")).issues.map
      (fun i => i.severity) = ["Banana"] ∧
    "Banana" ∉ (["Low", "Medium", "High", "Critical"] : List String) := by
  constructor <;> decide

/-- C9 amended: a finding persisted by the review-and-persist path carries
a severity taken verbatim from the parsed batch (or an already-stored row);
the parser substitutes `"Medium"` only when the field is absent, and no
step validates membership in `Low|Medium|High|Critical`. -/
theorem c9_severity_provenance :
    (∀ (db : DBState) (gid : Nat) (batch : List Issue) (mids : Nat → String) (x : DBIssue),
      x ∈ (review_and_persist db gid batch mids).issues →
      x.severity ∈ db.issues.map (fun i => i.severity) ∨
        x.severity ∈ batch.map (fun i => i.severity)) ∧
    parse_issues loadsFixtures tEmptyObj = Except.ok
      [{ file := "", line_start := 0, line_end := 0, severity := "Medium",
         title := "", explanation := "", suggestion := "" }] := by
  constructor
  · intro db gid batch mids x hx
    rcases sev_subset_aux gid mids _ db x hx with h | h
    · exact Or.inl h
    · right
      obtain ⟨j, hj, hjs⟩ := List.mem_map.1 h
      exact List.mem_map.2 ⟨j, List.mem_of_mem_filter hj, hjs⟩
  · decide

/-- Witness for the amended C9: the persisted copy of `iss0` carries the
batch's own severity string. -/
theorem c9_witness :
    ({ id := 1, game_id := 1, discord_message_id := some "m", file_path := "a.lua",
       line_start := 1, line_end := 2, severity := "High", title := "T",
       explanation := "e", suggestion := "s", resolved := false, resolved_by := none,
       resolved_reason := none, resolved_at := none } : DBIssue).severity ∈
      db0.issues.map (fun i => i.severity) ∨
    ({ id := 1, game_id := 1, discord_message_id := some "m", file_path := "a.lua",
       line_start := 1, line_end := 2, severity := "High", title := "T",
       explanation := "e", suggestion := "s", resolved := false, resolved_by := none,
       resolved_reason := none, resolved_at := none } : DBIssue).severity ∈
      [iss0].map (fun i => i.severity) :=
  c9_severity_provenance.1 db0 1 [iss0] (fun _ => "m") _ (by decide)

/-- Counterexample to C8 as stated: a 44-character secret ending in `=` is
used directly as the Fernet key — `init_encryption` does not derive it via
the one-way hash, as witnessed by a hash function the derived key provably
does not come from. -/
theorem c8_counterexample :
    "AAAAAAAAAAAAAAAAAAAAAAAAAAAAAAAAAAAAAAAAAAA=" ≠ "" ∧
    key_source "AAAAAAAAAAAAAAAAAAAAAAAAAAAAAAAAAAAAAAAAAAA=" = KeySource.directKey ∧
    KeySource.directKey ≠ KeySource.hashedKey ∧
    derive_key "FRESH" (fun s => "#" ++ s) "AAAAAAAAAAAAAAAAAAAAAAAAAAAAAAAAAAAAAAAAAAA=" ≠
      (fun s => "#" ++ s) "AAAAAAAAAAAAAAAAAAAAAAAAAAAAAAAAAAAAAAAAAAA=" := by
  refine ⟨by decide, by decide, by decide, by decide⟩

/-- C8 amended: for every non-empty secret the key is a deterministic
function of the secret alone (the process-startup randomness is unused), so
the same configured secret always decrypts previously encrypted blobs; the
one-way-hash derivation is used unless the secret is already shaped like a
literal 44-character `=`-terminated Fernet key, which is used directly. -/
theorem c8_deterministic_key (freshKey : String) (sha256b64 : String → String)
    (secret plaintext : String) (h : secret ≠ "") :
    (key_source secret = KeySource.directKey ∨ key_source secret = KeySource.hashedKey) ∧
    (∀ freshKey2 : String,
      derive_key freshKey sha256b64 secret = derive_key freshKey2 sha256b64 secret) ∧
    fernet_decrypt (derive_key freshKey sha256b64 secret)
      (fernet_encrypt (derive_key freshKey sha256b64 secret) plaintext) = some plaintext := by
  refine ⟨?_, ?_, ?_⟩
  · by_cases h44 : secret.length = 44 ∧ endsWithEq secret = true
    · left; simp [key_source, h, h44]
    · right; simp [key_source, h, h44]
  · intro freshKey2
    simp [derive_key, h]
  · simp [fernet_decrypt, fernet_encrypt]

/-- Witness for the amended C8 at a concrete secret. -/
theorem c8_witness :
    (key_source "mysecret" = KeySource.directKey ∨
      key_source "mysecret" = KeySource.hashedKey) ∧
    (∀ freshKey2 : String,
      derive_key "F1" (fun s => s ++ "!") "mysecret" =
        derive_key freshKey2 (fun s => s ++ "!") "mysecret") ∧
    fernet_decrypt (derive_key "F1" (fun s => s ++ "!") "mysecret")
      (fernet_encrypt (derive_key "F1" (fun s => s ++ "!") "mysecret") "pt") = some "pt" :=
  c8_deterministic_key "F1" (fun s => s ++ "!") "mysecret" "pt" (by decide)

set_option maxRecDepth 10000 in
/-- C4 (code bug): the claim says `parse_issues` never raises and skips an
element whose numeric field cannot coerce; but `json.loads` accepts the
literal `Infinity`, and `int(float("inf"))` raises `OverflowError`, which
the `except (ValueError, TypeError)` handler does not catch — on input
`[\x7b"line_start": Infinity\x7d]` the exception escapes `parse_issues`.
On inputs without non-finite numbers the claimed behaviour holds: the
fenced scenario parses to its one finding, and a `ValueError` element is
skipped without discarding the rest of the batch. -/
theorem c4_parse_overflow :
    parse_issues loadsFixtures tInf = Except.error PyErr.overflowError ∧
    parse_issues loadsFixtures tFenceFull = Except.ok
      [{ file := "a.luau", line_start := 5, line_end := 5, severity := "High",
         title := "Unsafe call", explanation := "x", suggestion := "y" }] ∧
    parse_issues loadsFixtures tSkip = Except.ok
      [{ file := "", line_start := 0, line_end := 0, severity := "Medium",
         title := "t", explanation := "", suggestion := "" }] := by
  refine ⟨by decide, ?_, by decide⟩
  decide

end Atlas
